import Mathlib

/-!
Verification of the optimized SWU map to BLS12-381 G2 (`optimized_swu.py`):
the square-root divider `sqrt_division_FQ2`, the map-to-curve core
`optimized_swu_G2`, and the 3-isogeny evaluator `iso_map_G2`.

The degree-2 extension field FQ2 and the numeric constant tables live in the
library's field/constants modules, which are external collaborators of this
core; they are modelled here from the specification (each such definition
carries a doc comment starting with `Modelled from the spec:`).  The three
functions themselves are translated line by line from the source.
-/

set_option maxRecDepth 8000

/-- Modelled from the spec: the base-field characteristic of BLS12-381
(the curve family is named in §1 of the spec; the field arithmetic itself is
an out-of-scope collaborator).  This is the standard 381-bit BLS12-381 prime. -/
def pBLS : ℕ := 0x1a0111ea397fe69a4b1ba7b6434bacd764774b84f38512bf6730d2a0f6b0f6241eabfffeb153ffffb9feffffffffaaab

/-- Modelled from the spec: the base prime field, as integers mod `pBLS`. -/
abbrev Fp := ZMod pBLS

/-- Modelled from the spec: an element of the degree-2 extension field
`Fp[i]/(i² + 1)`, "represented as a pair of base-field coordinates"
(spec glossary).  `FQ2 [a, b]` in the source is `⟨a, b⟩ = a + b·i` here. -/
structure FQ2 where
  re : Fp
  im : Fp

theorem FQ2.ext2 {a b : FQ2} (h1 : a.re = b.re) (h2 : a.im = b.im) : a = b := by
  cases a; cases b; simp_all

instance : DecidableEq FQ2 := fun a b =>
  if h1 : a.re = b.re then
    if h2 : a.im = b.im then isTrue (FQ2.ext2 h1 h2)
    else isFalse (fun he => h2 (congrArg FQ2.im he))
  else isFalse (fun he => h1 (congrArg FQ2.re he))

instance : Zero FQ2 := ⟨⟨0, 0⟩⟩

instance : One FQ2 := ⟨⟨1, 0⟩⟩

instance : Add FQ2 := ⟨fun a b => ⟨a.re + b.re, a.im + b.im⟩⟩

instance : Neg FQ2 := ⟨fun a => ⟨-a.re, -a.im⟩⟩

instance : Sub FQ2 := ⟨fun a b => ⟨a.re - b.re, a.im - b.im⟩⟩

instance : Mul FQ2 := ⟨fun a b => ⟨a.re * b.re - a.im * b.im, a.re * b.im + a.im * b.re⟩⟩

theorem FQ2.zero_def : (0 : FQ2) = ⟨0, 0⟩ := rfl

theorem FQ2.one_def : (1 : FQ2) = ⟨1, 0⟩ := rfl

theorem FQ2.add_def (a b : FQ2) : a + b = ⟨a.re + b.re, a.im + b.im⟩ := rfl

theorem FQ2.neg_def (a : FQ2) : -a = ⟨-a.re, -a.im⟩ := rfl

theorem FQ2.sub_def (a b : FQ2) : a - b = ⟨a.re - b.re, a.im - b.im⟩ := rfl

theorem FQ2.mul_def (a b : FQ2) :
    a * b = ⟨a.re * b.re - a.im * b.im, a.re * b.im + a.im * b.re⟩ := rfl

instance : CommRing FQ2 where
  nsmul := nsmulRec
  zsmul := zsmulRec
  add_assoc a b c := by
    apply FQ2.ext2 <;> simp [FQ2.add_def] <;> ring
  zero_add a := by
    apply FQ2.ext2 <;> simp [FQ2.add_def, FQ2.zero_def]
  add_zero a := by
    apply FQ2.ext2 <;> simp [FQ2.add_def, FQ2.zero_def]
  add_comm a b := by
    apply FQ2.ext2 <;> simp [FQ2.add_def] <;> ring
  mul_assoc a b c := by
    apply FQ2.ext2 <;> simp [FQ2.mul_def] <;> ring
  one_mul a := by
    apply FQ2.ext2 <;> simp [FQ2.mul_def, FQ2.one_def]
  mul_one a := by
    apply FQ2.ext2 <;> simp [FQ2.mul_def, FQ2.one_def]
  zero_mul a := by
    apply FQ2.ext2 <;> simp [FQ2.mul_def, FQ2.zero_def]
  mul_zero a := by
    apply FQ2.ext2 <;> simp [FQ2.mul_def, FQ2.zero_def]
  left_distrib a b c := by
    apply FQ2.ext2 <;> simp [FQ2.mul_def, FQ2.add_def] <;> ring
  right_distrib a b c := by
    apply FQ2.ext2 <;> simp [FQ2.mul_def, FQ2.add_def] <;> ring
  mul_comm a b := by
    apply FQ2.ext2 <;> simp [FQ2.mul_def] <;> ring
  neg_add_cancel a := by
    apply FQ2.ext2 <;> simp [FQ2.add_def, FQ2.neg_def, FQ2.zero_def]
  sub_eq_add_neg a b := by
    apply FQ2.ext2 <;> simp [FQ2.sub_def, FQ2.add_def, FQ2.neg_def] <;> ring

/-- Square-and-multiply helper: `FQ2.mulPow x acc e fuel = acc * x ^ e`
whenever `e ≤ fuel`.  This mirrors the fast exponentiation the source's
field type uses for `**`, and is kernel-evaluable for concrete inputs. -/
@[irreducible] def FQ2.mulPow (x acc : FQ2) (e fuel : ℕ) : FQ2 :=
  match fuel with
  | 0 => acc
  | fuel + 1 =>
    if e = 0 then acc
    else FQ2.mulPow (x * x) (if e % 2 = 1 then acc * x else acc) (e / 2) fuel

/-- Modelled from the spec: integer-exponent power on the extension field
(one of the required field operations, §3).  Binary exponentiation, equal to
the monoid power `x ^ n` (see `fqpow_eq`). -/
def fqpow (x : FQ2) (n : ℕ) : FQ2 := FQ2.mulPow x 1 n n

theorem FQ2.mulPow_eq (fuel : ℕ) :
    ∀ (x acc : FQ2) (e : ℕ), e ≤ fuel → FQ2.mulPow x acc e fuel = acc * x ^ e := by
  induction fuel with
  | zero =>
    intro x acc e he
    have h0 : e = 0 := Nat.le_zero.mp he
    simp [FQ2.mulPow, h0]
  | succ f ih =>
    intro x acc e he
    rw [FQ2.mulPow]
    by_cases he0 : e = 0
    · simp [he0]
    · have hlt : e / 2 < e := Nat.div_lt_self (Nat.pos_of_ne_zero he0) (by norm_num)
      have hle : e / 2 ≤ f := Nat.lt_succ_iff.mp (Nat.lt_of_lt_of_le hlt he)
      have hsplit : 2 * (e / 2) + e % 2 = e := Nat.div_add_mod e 2
      rw [if_neg he0, ih (x * x) _ (e / 2) hle]
      conv_rhs => rw [← hsplit]
      rw [pow_add, pow_mul, pow_two]
      by_cases hm : e % 2 = 1
      · rw [if_pos hm, hm, pow_one]; ring
      · have hm0 : e % 2 = 0 := Nat.mod_two_ne_one.mp hm
        rw [if_neg hm, hm0, pow_zero, mul_one]

theorem fqpow_eq (x : FQ2) (n : ℕ) : fqpow x n = x ^ n := by
  rw [fqpow, FQ2.mulPow_eq n x 1 n (Nat.le_refl n), one_mul]

/-- Modelled from the spec: the deterministic sign bit `sgn0` on extension
field elements ("a stable 0/1 classification used to canonicalize which of
two additive-inverse roots is positive", §3), in the reference convention:
the parity of the first coordinate, falling back to the parity of the second
coordinate when the first is zero. -/
def sgn0 (x : FQ2) : Bool :=
  decide (x.re.val % 2 = 1) || (decide (x.re = 0) && decide (x.im.val % 2 = 1))

/-- Modelled from the spec: the isogenous-curve coefficient `A` of
`E': y² = x³ + A·x + B`.  The source's header comment gives the curve as
`y^2 = x^3 + 240i * x + 1012 + 1012i`, so `A = 240i`. -/
def ISO_3_A : FQ2 := ⟨0, 240⟩

/-- Modelled from the spec: the isogenous-curve coefficient `B = 1012 + 1012i`
(source header comment). -/
def ISO_3_B : FQ2 := ⟨1012, 1012⟩

/-- Modelled from the spec: the fixed non-square SWU parameter `Z`.  Its
numeric value is not stated in the spec; we take `Z = 1 + i`, a non-square of
the extension field for which the spec's eta-fallback coverage property (§8)
is satisfiable with the eta-table shape hard-coded in `positive_eta_roots`
(a `Z` whose cube has no `a ± a·i` form, such as the `-(2+i)` of the final
RFC suite, makes every eta test fail identically, contradicting §8). -/
def ISO_3_Z : FQ2 := ⟨1, 1⟩

/-- Modelled from the spec: the fixed exponent `e = (q − 9)/16` used by the
square-root divider, `q = pBLS²` being the order of the degree-2 extension
field (which satisfies `q ≡ 9 (mod 16)`; §4.1 writes `p` for the field's
size parameter). -/
def P_MINUS_9_DIV_16 : ℕ := (pBLS ^ 2 - 9) / 16

/-- Modelled from the spec: `RV1 = sqrt(-1/2)` in the base field, the
base-field coordinate of the primitive eighth roots of unity
`±RV1·(1 ± i)` of the extension field. -/
def RV1 : Fp := 0x135203e60180a68ee2e9c448d77a2cd91c3dedd930b1cf60ef396489f61eb45e304466cf3e67fa0af1ee7b04121bdea2

/-- Modelled from the spec: the ordered table of the "8 precomputed positive
eighth roots of unity" (§4.1) of the extension field: `±1, ±i, ±RV1·(1+i),
±RV1·(1−i)`.  Only the defining property `root⁸ = 1` (equivalently, `root²`
ranges over the fourth roots of unity) matters for any theorem below; the
listed order fixes which match is "first". -/
def POSITIVE_EIGTH_ROOTS_OF_UNITY : List FQ2 :=
  [⟨1, 0⟩, ⟨0, 1⟩, ⟨RV1, RV1⟩, ⟨RV1, -RV1⟩,
   ⟨-1, 0⟩, ⟨0, -1⟩, ⟨-RV1, -RV1⟩, ⟨-RV1, RV1⟩]

/-- Modelled from the spec: the base-field constant `EV1` from which the
first two eta correction values are built (§3; the numeric value is not
derivable from the spec — it is chosen so that `EV1² = Z³·ζ` for an eighth
root of unity `ζ`, making the eta table fulfil its §8 coverage role.  No
theorem below depends on the eta values). -/
def EV1 : Fp := 0x2c4a7244a026bd3e305cc456ad9e235ed85f8b53954258ec8186bb3d4eccef7c4ee7b8d4b9e063a6c88d0aa3e03ba01

/-- Modelled from the spec: the base-field constant `EV2` from which the
last two eta correction values are built (see `EV1`). -/
def EV2 : Fp := 0x11a1691ca87a753be703151549a6f1ae51c1bff7c092ad2aa12a58d47d3deeb658487ca5d660aeb255d857ec51fdb591

/-- Square Root Division (`sqrt_division_FQ2` in the source).
Computes `sqrt_candidate = u·v⁷ · (u·v⁷·v⁸)^((p−9)/16)` and then scans the
table of eighth roots of unity, accepting the first `root` for which
`(root · sqrt_candidate)² · v − u == 0`; returns `(valid_root, result)`
exactly as the source's flag-threaded loop does. -/
def sqrt_division_FQ2 (u v : FQ2) : Bool × FQ2 :=
  let temp1 := u * fqpow v 7
  let temp2 := temp1 * fqpow v 8
  let sqrt_candidate := fqpow temp2 P_MINUS_9_DIV_16 * temp1
  POSITIVE_EIGTH_ROOTS_OF_UNITY.foldl
    (fun acc root =>
      if fqpow (root * sqrt_candidate) 2 * v - u = 0 ∧ acc.1 = false
      then (true, root * sqrt_candidate) else acc)
    (false, sqrt_candidate)

/-- The four positive eta roots (`positive_eta_roots` in the source):
`[FQ2([EV1, 0]), FQ2([0, EV1]), FQ2([EV2, EV2]), FQ2([EV2, -EV2])]`. -/
def positive_eta_roots : List FQ2 :=
  [⟨EV1, 0⟩, ⟨0, EV1⟩, ⟨EV2, EV2⟩, ⟨EV2, -EV2⟩]

/-- `t2 = t ** 2` (source line 27). -/
def swu_t2 (t : FQ2) : FQ2 := fqpow t 2

/-- `temp = ISO_3_Z * t2; temp = temp + temp ** 2` (source lines 28–29). -/
def swu_s (t : FQ2) : FQ2 := ISO_3_Z * swu_t2 t + fqpow (ISO_3_Z * swu_t2 t) 2

/-- `denominator = -(ISO_3_A * temp)` before the exceptional-case check
(source line 30). -/
def swu_den0 (t : FQ2) : FQ2 := -(ISO_3_A * swu_s t)

/-- The denominator after the exceptional-case substitution (source
lines 34–36): if it is zero it is replaced by `ISO_3_Z * ISO_3_A`. -/
def swu_den (t : FQ2) : FQ2 :=
  if swu_den0 t = 0 then ISO_3_Z * ISO_3_A else swu_den0 t

/-- `numerator = ISO_3_B * (temp + 1)` (source lines 31–32). -/
def swu_num0 (t : FQ2) : FQ2 := ISO_3_B * (swu_s t + 1)

/-- `v = denominator ** 3` (source line 39). -/
def swu_v (t : FQ2) : FQ2 := fqpow (swu_den t) 3

/-- `u = numerator³ + a·numerator·denominator² + b·v` (source line 41). -/
def swu_u (t : FQ2) : FQ2 :=
  fqpow (swu_num0 t) 3 + ISO_3_A * swu_num0 t * fqpow (swu_den t) 2
    + ISO_3_B * swu_v t

/-- `(success, sqrt_candidate) = sqrt_division_FQ2(u, v)` (source line 44). -/
def swu_sqrtRes (t : FQ2) : Bool × FQ2 := sqrt_division_FQ2 (swu_u t) (swu_v t)

/-- The primary branch's success flag (source line 44). -/
def swu_success (t : FQ2) : Bool := (swu_sqrtRes t).1

/-- The primary branch's square-root candidate, `y` before the eta loop
(source lines 44–45). -/
def swu_y0 (t : FQ2) : FQ2 := (swu_sqrtRes t).2

/-- `sqrt_candidate = sqrt_candidate * t ** 3` (source line 49). -/
def swu_cand1 (t : FQ2) : FQ2 := swu_y0 t * fqpow t 3

/-- `u = (ISO_3_Z * t2) ** 3 * u` (source line 51). -/
def swu_u1 (t : FQ2) : FQ2 := fqpow (ISO_3_Z * swu_t2 t) 3 * swu_u t

/-- The eta loop of source lines 52–60 threaded as a fold: state
`(success_2, y)`, updated on the first eta whose test passes while the
primary branch did not succeed. -/
def swu_etaState (t : FQ2) : Bool × FQ2 :=
  positive_eta_roots.foldl
    (fun acc eta =>
      if fqpow (eta * swu_cand1 t) 2 * swu_v t - swu_u1 t = 0
          ∧ swu_success t = false ∧ acc.1 = false
      then (true, swu_cand1 t * eta) else acc)
    (false, swu_y0 t)

/-- `success_2` after the eta loop. -/
def swu_success2 (t : FQ2) : Bool := (swu_etaState t).1

/-- `y` after the eta loop. -/
def swu_yMid (t : FQ2) : FQ2 := (swu_etaState t).2

/-- `numerator` after the x₁ selection of source lines 65–66. -/
def swu_num (t : FQ2) : FQ2 :=
  if swu_success t = false then swu_num0 t * swu_t2 t * ISO_3_Z else swu_num0 t

/-- `y` after the sign canonicalization of source lines 68–69. -/
def swu_ySigned (t : FQ2) : FQ2 :=
  if sgn0 t ≠ sgn0 (swu_yMid t) then -(swu_yMid t) else swu_yMid t

/-- Optimized SWU Map, FQ2 to G2' (`optimized_swu_G2` in the source).
`none` models the `raise Exception("Hash to Curve - Optimized SWU failure")`
of source line 63, which fires at the last loop index exactly when neither
the primary square root nor any eta candidate succeeded; otherwise the
returned triple is `[numerator, y * denominator, denominator]`
(source lines 71–73). -/
def optimized_swu_G2 (t : FQ2) : Option (FQ2 × FQ2 × FQ2) :=
  if swu_success t = false ∧ swu_success2 t = false then none
  else some (swu_num t, swu_ySigned t * swu_den t, swu_den t)

/-- One table of the Horner loop of `iso_map_G2` (source lines 119–122):
start from the last coefficient `k_i[-1:][0]` and fold over the remaining
coefficients in reversed order, pairing them with `z_powers = [z, z², z³]`:
`mapped = mapped * x + z_powers[j] * k_i_j`. -/
def hornerEval (k : List FQ2) (x z : FQ2) : FQ2 :=
  ((k.dropLast.reverse).zip [z, fqpow z 2, fqpow z 3]).foldl
    (fun acc pr => acc * x + pr.2 * pr.1) (k.getLastD 0)

/-- Optimal Map from 3-Isogenous Curve to G2 (`iso_map_G2` in the source).
The coefficient tables (x-numerator, x-denominator, y-numerator,
y-denominator) are passed as the configuration value `K` (the spec's §9
models the constant tables as injected configuration; their numeric entries
are not given by the spec and no theorem below depends on them).  After the
Horner loop the y-numerator is multiplied by `y` and the y-denominator by
`z` (source lines 124–125), and the result is assembled by
cross-multiplication (source lines 127–130). -/
def iso_map_G2 (K : List (List FQ2)) (x y z : FQ2) : FQ2 × FQ2 × FQ2 :=
  let xNum := hornerEval (K.getD 0 []) x z
  let xDen := hornerEval (K.getD 1 []) x z
  let yNum := hornerEval (K.getD 2 []) x z * y
  let yDen := hornerEval (K.getD 3 []) x z * z
  (xNum * yDen, yNum * xDen, xDen * yDen)

/-- The sqrt candidate `uv⁷ · (uv⁷·v⁸)^((p−9)/16)` computed by
`sqrt_division_FQ2` before the root-of-unity scan (source lines 80–85). -/
def sqrtCand (u v : FQ2) : FQ2 :=
  fqpow (u * fqpow v 7 * fqpow v 8) P_MINUS_9_DIV_16 * (u * fqpow v 7)

/-- The shared first-match-wins fold pattern of the source's two scan loops:
state `(found, result)`, updated to `(true, g a)` by the first `a`
satisfying `p`, never overwritten afterwards. -/
def firstMatch {α β : Type} (p : α → Prop) [DecidablePred p] (g : α → β)
    (l : List α) (b0 : β) : Bool × β :=
  l.foldl (fun acc a => if p a ∧ acc.1 = false then (true, g a) else acc)
    (false, b0)

theorem foldl_firstMatch_true {α β : Type} (p : α → Prop) [DecidablePred p]
    (g : α → β) (l : List α) (b : β) :
    l.foldl (fun acc a => if p a ∧ acc.1 = false then (true, g a) else acc)
      (true, b) = (true, b) := by
  induction l with
  | nil => rfl
  | cons hd tl ih =>
    rw [List.foldl_cons, if_neg (by simp)]
    exact ih

theorem firstMatch_eq_find {α β : Type} (p : α → Prop) [DecidablePred p]
    (g : α → β) (l : List α) (b0 : β) :
    firstMatch p g l b0 =
      match l.find? (fun a => decide (p a)) with
      | some a => (true, g a)
      | none => (false, b0) := by
  induction l with
  | nil => rfl
  | cons hd tl ih =>
    rw [firstMatch, List.foldl_cons]
    by_cases hp : p hd
    · rw [if_pos ⟨hp, rfl⟩, foldl_firstMatch_true,
        List.find?_cons_of_pos _ (by simpa using hp)]
    · rw [if_neg (by simp [hp]),
        List.find?_cons_of_neg _ (by simpa using hp)]
      exact ih

theorem firstMatch_true_spec {α β : Type} (p : α → Prop) [DecidablePred p]
    (g : α → β) (l : List α) (b0 : β) (r : β)
    (h : firstMatch p g l b0 = (true, r)) :
    ∃ a, a ∈ l ∧ p a ∧ r = g a := by
  rw [firstMatch_eq_find] at h
  revert h
  cases hf : l.find? (fun a => decide (p a)) with
  | none => intro h; simp at h
  | some a =>
    intro h
    refine ⟨a, List.mem_of_find?_eq_some hf, ?_, ?_⟩
    · have := List.find?_some hf
      simpa using this
    · have : (true, g a) = ((true, r) : Bool × β) := h
      simpa using this.symm

theorem firstMatch_false_spec {α β : Type} (p : α → Prop) [DecidablePred p]
    (g : α → β) (l : List α) (b0 : β)
    (h : (firstMatch p g l b0).1 = false) :
    firstMatch p g l b0 = (false, b0) ∧ ∀ a ∈ l, ¬ p a := by
  rw [firstMatch_eq_find] at h ⊢
  cases hf : l.find? (fun a => decide (p a)) with
  | none =>
    refine ⟨rfl, ?_⟩
    intro a ha hpa
    have := List.find?_eq_none.mp hf a ha
    simp [hpa] at this
  | some a => rw [hf] at h; simp at h

theorem firstMatch_fst_true_iff {α β : Type} (p : α → Prop) [DecidablePred p]
    (g : α → β) (l : List α) (b0 : β) :
    (firstMatch p g l b0).1 = true ↔ ∃ a ∈ l, p a := by
  constructor
  · intro h
    obtain ⟨a, ha, hpa, _⟩ :=
      firstMatch_true_spec p g l b0 (firstMatch p g l b0).2
        (by rw [← h])
    exact ⟨a, ha, hpa⟩
  · intro ⟨a, ha, hpa⟩
    by_contra hne
    have hf : (firstMatch p g l b0).1 = false :=
      Bool.not_eq_true _ ▸ (by simpa using hne)
    exact (firstMatch_false_spec p g l b0 hf).2 a ha hpa

/-- `sqrt_division_FQ2` is exactly the first-match scan of the
root-of-unity table seeded with `sqrtCand`. -/
theorem sqrt_division_eq_firstMatch (u v : FQ2) :
    sqrt_division_FQ2 u v =
      firstMatch (fun root => fqpow (root * sqrtCand u v) 2 * v - u = 0)
        (fun root => root * sqrtCand u v)
        POSITIVE_EIGTH_ROOTS_OF_UNITY (sqrtCand u v) := by
  simp only [sqrt_division_FQ2, firstMatch, sqrtCand]

theorem sqrt_division_true_spec (u v r : FQ2)
    (h : sqrt_division_FQ2 u v = (true, r)) :
    (∃ root ∈ POSITIVE_EIGTH_ROOTS_OF_UNITY, r = root * sqrtCand u v)
      ∧ fqpow r 2 * v - u = 0 := by
  rw [sqrt_division_eq_firstMatch] at h
  obtain ⟨root, hmem, hp, hr⟩ := firstMatch_true_spec _ _ _ _ _ h
  exact ⟨⟨root, hmem, hr⟩, hr ▸ hp⟩

theorem sqrt_division_success_sq (u v : FQ2)
    (h : (sqrt_division_FQ2 u v).1 = true) :
    fqpow (sqrt_division_FQ2 u v).2 2 * v - u = 0 := by
  have hpair : sqrt_division_FQ2 u v = (true, (sqrt_division_FQ2 u v).2) :=
    Prod.ext h rfl
  exact (sqrt_division_true_spec u v _ hpair).2

theorem sqrt_division_false_spec (u v : FQ2)
    (h : (sqrt_division_FQ2 u v).1 = false) :
    sqrt_division_FQ2 u v = (false, sqrtCand u v)
      ∧ ∀ root ∈ POSITIVE_EIGTH_ROOTS_OF_UNITY,
          fqpow (root * sqrtCand u v) 2 * v - u ≠ 0 := by
  rw [sqrt_division_eq_firstMatch] at h ⊢
  exact firstMatch_false_spec _ _ _ _ h

/-- When the primary square root succeeded, the eta loop never fires. -/
theorem swu_etaState_of_success (t : FQ2) (h : swu_success t = true) :
    swu_etaState t = (false, swu_y0 t) := by
  rw [swu_etaState]
  simp [h]

/-- When the primary square root failed, the eta loop is the first-match
scan of the eta table. -/
theorem swu_etaState_of_fail (t : FQ2) (h : swu_success t = false) :
    swu_etaState t =
      firstMatch
        (fun eta => fqpow (eta * swu_cand1 t) 2 * swu_v t - swu_u1 t = 0)
        (fun eta => swu_cand1 t * eta) positive_eta_roots (swu_y0 t) := by
  rw [swu_etaState, firstMatch]
  simp [h]

theorem swu_eta_found (t : FQ2) (hs : swu_success t = false)
    (h2 : swu_success2 t = true) :
    ∃ eta ∈ positive_eta_roots,
      fqpow (eta * swu_cand1 t) 2 * swu_v t - swu_u1 t = 0
        ∧ swu_yMid t = swu_cand1 t * eta := by
  have hst := swu_etaState_of_fail t hs
  have hpair : swu_etaState t = (true, swu_yMid t) := Prod.ext h2 rfl
  rw [hst] at hpair
  obtain ⟨eta, hmem, hp, hy⟩ := firstMatch_true_spec _ _ _ _ _ hpair
  exact ⟨eta, hmem, hp, hy⟩

theorem swu_yMid_of_success (t : FQ2) (h : swu_success t = true) :
    swu_yMid t = swu_y0 t := by
  rw [swu_yMid, swu_etaState_of_success t h]

/-- The denominator in the exceptional case: `ISO_3_Z * ISO_3_A`. -/
def exc_den : FQ2 := ISO_3_Z * ISO_3_A

/-- The value of `v` whenever the exceptional case fires (`s = 0`). -/
def exc_v : FQ2 := fqpow exc_den 3

/-- The value of `u` whenever the exceptional case fires (`s = 0`, so the
numerator is `ISO_3_B`). -/
def exc_u : FQ2 :=
  fqpow ISO_3_B 3 + ISO_3_A * ISO_3_B * fqpow exc_den 2 + ISO_3_B * exc_v

/-- Low 256-bit digit of `P_MINUS_9_DIV_16` in base `2^256`. -/
def CHUNK_D0 : ℕ := 0x966bf91ed3e71b743162c338362113cfd7ced6b1d76382eab26aa00001c718e3

/-- Middle 256-bit digit of `P_MINUS_9_DIV_16` in base `2^256`. -/
def CHUNK_D1 : ℕ := 0x50a62cfd16ddca6ef53149330978ef011d68619c86185c7b292e85a87091a04

/-- High digit of `P_MINUS_9_DIV_16` in base `2^256`. -/
def CHUNK_D2 : ℕ := 0x2a437a4b8c35fc74bd278eaa22f25e9e2dc90e50e7046b466e59e49349e8bd

/-- `2^256`, the chunk base used to evaluate the 758-bit exponentiation in
stack-bounded pieces. -/
def TWO_256 : ℕ := 0x10000000000000000000000000000000000000000000000000000000000000000

/-- `exc_u * exc_v⁷`, evaluated. -/
def EXC_T1 : FQ2 := ⟨0x1ae0d5ae7e99c9f659af8264be8000000000000000000000000000, 0xe6f4c85a0a5bdb6c84f783f1d2ac0000000000000000000000000⟩

/-- `EXC_T1 * exc_v⁸`, evaluated. -/
def EXC_T2 : FQ2 := ⟨0xf6a56f1feba4669a629d52d567721d93593dc4ee4153ccd372e7f4036f62f8c68b85b1d45447d24cd772bd901f7d22e, 0x176c60b77ca1c281c7f07359f6e9654ab6f42e3caa7f8e594fb40294f631fb9815cffb39e5dae3057950a107e7677790⟩

/-- `EXC_T2 ^ CHUNK_D2`, evaluated. -/
def EXC_L2 : FQ2 := ⟨0x187dbd2b6dc599cb8d68f3cf257780904953c38bcec3bdd231828e80512aa4a7c470e1e6447ecf68e797838b505f045c, 0x656dce304d19d3b1684f7090c215a4347ae2fb344e86785320605197887efd22f89551c3bee7deb464a65a0faa7471f⟩

/-- `EXC_L2 ^ TWO_256`, evaluated. -/
def EXC_M2 : FQ2 := ⟨0x10fe1dedf9dae3de3aac026188501c7e0b4104849da3021a6969879bc02340bb9e6b123dcf235af3082795bb4e1e56c0, 0x11a3a2d9e0eebd0abbfbe68aea878c39e147d33cf9a6c8efeaa70ada0a76a3d1df9343f33ef7f008b98c5f5cae2881a⟩

/-- `EXC_M2 * EXC_T2 ^ CHUNK_D1`, evaluated. -/
def EXC_L1 : FQ2 := ⟨0x19fb7b4956736ad1ba8e8dd15d9147c259494d4820bea1ad38c64cbcf1b2414c22afb3530dd9fc00c1ccf4bad43a3d59, 0x17b733d534812cffe64677c42cd2c9a34925a508ad64cfa016f505eed806bb660b6055d440a399b49d5d78a793d7a3d3⟩

/-- `EXC_L1 ^ TWO_256`, evaluated. -/
def EXC_M1 : FQ2 := ⟨0xffdca5cb342aa733ca79579942e6ff97a46734878c17ef91fd7c8b7db6392e73b382e2e9d006cb86aa6256b156394ca, 0x13e4ddc222378257f4fe9c88176c9b320fd4f291193ba1d296889b8a2daa0a1628afd49c8cf3840faa96ebf3ae29f40c⟩

/-- `EXC_T2 ^ P_MINUS_9_DIV_16 = EXC_M1 * EXC_T2 ^ CHUNK_D0`, evaluated. -/
def EXC_SCPOW : FQ2 := ⟨0x28d4e3c93e6aae0276f054cfe18a08429763115404c005e46438335d4b9fd89ff03bc05488f64fdb760e4df37bd08d, 0x26f97d7d0938488392a454b7d453ce3e65763c93ecf5681528266a94ed87a80cf417c7935d286ce4eb2a3088469a9fa⟩

/-- `sqrtCand exc_u exc_v = EXC_SCPOW * EXC_T1`, evaluated. -/
def EXC_SC : FQ2 := ⟨0x346ecd0aa5cd038896ce6adc5771561d91e4c759bbbb9bf0e36c899b9db9a4cabb9b6f11cdba513d43879f370d08e46, 0x1782c09826907d939751529e148d7285b6ae6be824fffb8b5c942d2654246aa738d17b69410001f1e76f2668a18de23e⟩

/-- The accepted square root returned by `sqrt_division_FQ2 exc_u exc_v`
(the second table root, `i`, matches first). -/
def EXC_ROOT_RES : FQ2 := ⟨0x27e515212ef6906b3ca55182ebe3a51adc8df9cce8517340a9ca57aa28c8b7ce5da84957053fe0dd28fd9975e71c86d, 0x346ecd0aa5cd038896ce6adc5771561d91e4c759bbbb9bf0e36c899b9db9a4cabb9b6f11cdba513d43879f370d08e46⟩

/-- The `Y` component of `optimized_swu_G2 0`, evaluated. -/
def SWU0_Y : FQ2 := ⟨0x6b18b138ffaed57d70e50d9034fefb6ac06aebd32370246e91b97c38f00777e215bce69a644ef9ada0352224e42f269, 0x60a4946641170803aa6e641763ba544e0d2fa9dba94df178e2b2abf1b4727ccaa8b35fae5e095a3781d565138dbd0c3⟩

/-- The multiplicative inverse of `ISO_3_A` (certificate that `ISO_3_A` is
a unit, used to cancel it in the exceptional-case analysis). -/
def A_INV : FQ2 := ⟨0x0, 0x11a9429135fc33048635fb811ec587857cc4389fa11fb65531d128a6ebcfa72bbb3b3776942b2eeebf63966666662c72⟩

unseal FQ2.mulPow in
theorem A_mul_A_INV : ISO_3_A * A_INV = 1 := by decide

unseal FQ2.mulPow in
theorem exc_den_ne_zero : exc_den ≠ 0 := by decide

unseal FQ2.mulPow in
/-- Every entry of the table is an eighth root of unity. -/
theorem roots_pow_eight :
    ∀ root ∈ POSITIVE_EIGTH_ROOTS_OF_UNITY, fqpow root 8 = 1 := by decide

unseal FQ2.mulPow in
theorem exc_chunk1 : fqpow EXC_T2 CHUNK_D2 = EXC_L2 := by decide

unseal FQ2.mulPow in
theorem exc_chunk2 : fqpow EXC_L2 TWO_256 = EXC_M2 := by decide

unseal FQ2.mulPow in
theorem exc_chunk3 : EXC_M2 * fqpow EXC_T2 CHUNK_D1 = EXC_L1 := by decide

unseal FQ2.mulPow in
theorem exc_chunk4 : fqpow EXC_L1 TWO_256 = EXC_M1 := by decide

unseal FQ2.mulPow in
theorem exc_chunk5 : EXC_M1 * fqpow EXC_T2 CHUNK_D0 = EXC_SCPOW := by decide

theorem exp_split :
    P_MINUS_9_DIV_16 = (CHUNK_D2 * TWO_256 + CHUNK_D1) * TWO_256 + CHUNK_D0 := by
  decide

/-- The 758-bit exponentiation at the heart of `sqrtCand exc_u exc_v`,
assembled from the base-`2^256` chunk evaluations. -/
theorem exc_pow : fqpow EXC_T2 P_MINUS_9_DIV_16 = EXC_SCPOW := by
  have e1 : EXC_T2 ^ CHUNK_D2 = EXC_L2 := by rw [← fqpow_eq]; exact exc_chunk1
  have e2 : EXC_L2 ^ TWO_256 = EXC_M2 := by rw [← fqpow_eq]; exact exc_chunk2
  have e3 : EXC_M2 * EXC_T2 ^ CHUNK_D1 = EXC_L1 := by
    rw [← fqpow_eq]; exact exc_chunk3
  have e4 : EXC_L1 ^ TWO_256 = EXC_M1 := by rw [← fqpow_eq]; exact exc_chunk4
  have e5 : EXC_M1 * EXC_T2 ^ CHUNK_D0 = EXC_SCPOW := by
    rw [← fqpow_eq]; exact exc_chunk5
  rw [fqpow_eq, exp_split, pow_add, pow_mul, pow_add, pow_mul, e1, e2, e3, e4, e5]

unseal FQ2.mulPow in
theorem exc_t1 : exc_u * fqpow exc_v 7 = EXC_T1 := by decide

unseal FQ2.mulPow in
theorem exc_t2 : EXC_T1 * fqpow exc_v 8 = EXC_T2 := by decide

unseal FQ2.mulPow in
theorem exc_sc_mul : EXC_SCPOW * EXC_T1 = EXC_SC := by decide

theorem exc_sc : sqrtCand exc_u exc_v = EXC_SC := by
  rw [sqrtCand, exc_t1, exc_t2, exc_pow, exc_sc_mul]

unseal FQ2.mulPow in
/-- In the exceptional case the primary square-root division succeeds:
`u/v = g(B/(Z·A))` is a square there, as the spec's choice criteria for `Z`
require. -/
theorem exc_sqrtdiv : sqrt_division_FQ2 exc_u exc_v = (true, EXC_ROOT_RES) := by
  rw [sqrt_division_eq_firstMatch]
  simp only [exc_sc]
  decide

theorem exc_success : (sqrt_division_FQ2 exc_u exc_v).1 = true := by
  rw [exc_sqrtdiv]

unseal FQ2.mulPow in
theorem swu_s_zero : swu_s 0 = 0 := by decide

unseal FQ2.mulPow in
theorem swu_num0_zero : swu_num0 0 = ISO_3_B := by decide

unseal FQ2.mulPow in
theorem swu_den_zero : swu_den 0 = ISO_3_Z * ISO_3_A := by decide

unseal FQ2.mulPow in
theorem swu_u_zero : swu_u 0 = exc_u := by decide

unseal FQ2.mulPow in
theorem swu_v_zero : swu_v 0 = exc_v := by decide

theorem swu_sqrtRes_zero : swu_sqrtRes 0 = (true, EXC_ROOT_RES) := by
  rw [swu_sqrtRes, swu_u_zero, swu_v_zero, exc_sqrtdiv]

theorem swu_success_zero : swu_success 0 = true := by
  rw [swu_success, swu_sqrtRes_zero]

theorem swu_y0_zero : swu_y0 0 = EXC_ROOT_RES := by
  rw [swu_y0, swu_sqrtRes_zero]

theorem swu_yMid_zero : swu_yMid 0 = EXC_ROOT_RES := by
  rw [swu_yMid_of_success 0 swu_success_zero, swu_y0_zero]

theorem swu_num_zero : swu_num 0 = ISO_3_B := by
  rw [swu_num, swu_success_zero, if_neg (by simp), swu_num0_zero]

theorem swu_ySigned_zero : swu_ySigned 0 = -EXC_ROOT_RES := by
  rw [swu_ySigned, swu_yMid_zero]
  decide

/-- Full evaluation of the map at the additive identity of the field. -/
theorem optimized_swu_G2_zero :
    optimized_swu_G2 0 = some (ISO_3_B, SWU0_Y, ISO_3_Z * ISO_3_A) := by
  rw [optimized_swu_G2, if_neg (by simp [swu_success_zero]),
    swu_num_zero, swu_ySigned_zero, swu_den_zero]
  decide

/-- If the pre-substitution denominator vanishes then `s = 0`: `ISO_3_A` is
a unit (witnessed by `A_INV`), so it cancels. -/
theorem swu_s_of_den0_zero (t : FQ2) (h : swu_den0 t = 0) : swu_s t = 0 := by
  rw [swu_den0, neg_eq_zero] at h
  calc swu_s t = A_INV * (ISO_3_A * swu_s t) := by
        rw [← mul_assoc, mul_comm A_INV, A_mul_A_INV, one_mul]
    _ = A_INV * 0 := by rw [h]
    _ = 0 := mul_zero _

/-- In the exceptional case all intermediate values collapse to the
`exc_*` constants. -/
theorem swu_exc_values (t : FQ2) (h : swu_s t = 0) :
    swu_num0 t = ISO_3_B ∧ swu_den t = ISO_3_Z * ISO_3_A
      ∧ swu_u t = exc_u ∧ swu_v t = exc_v := by
  have hden0 : swu_den0 t = 0 := by rw [swu_den0, h, mul_zero, neg_zero]
  have hden : swu_den t = ISO_3_Z * ISO_3_A := by rw [swu_den, if_pos hden0]
  have hnum : swu_num0 t = ISO_3_B := by rw [swu_num0, h, zero_add, mul_one]
  have hv : swu_v t = exc_v := by rw [swu_v, hden, exc_v, exc_den]
  refine ⟨hnum, hden, ?_, hv⟩
  rw [swu_u, hnum, hden, hv, exc_u, exc_den]

/-- In the exceptional case the primary branch always succeeds. -/
theorem swu_success_of_s_zero (t : FQ2) (h : swu_s t = 0) :
    swu_success t = true := by
  obtain ⟨-, -, hu, hv⟩ := swu_exc_values t h
  rw [swu_success, swu_sqrtRes, hu, hv, exc_sqrtdiv]

/-- The returned denominator is never zero: either the branch guard already
ensured it, or it is the nonzero constant `Z·A`. -/
theorem swu_den_ne_zero (t : FQ2) : swu_den t ≠ 0 := by
  rw [swu_den]
  by_cases h : swu_den0 t = 0
  · rw [if_pos h]
    exact fun he => exc_den_ne_zero he
  · rw [if_neg h]
    exact h

/-- The squared sign-canonicalized value equals the squared pre-sign value. -/
theorem swu_ySigned_sq (t : FQ2) : swu_ySigned t ^ 2 = swu_yMid t ^ 2 := by
  rw [swu_ySigned]
  by_cases hs : sgn0 t ≠ sgn0 (swu_yMid t)
  · rw [if_pos hs]; ring
  · rw [if_neg hs]

/-- Master soundness lemma: any triple `optimized_swu_G2` returns satisfies
the homogeneous isogenous-curve equation `Y²·Z = X³ + A·X·Z² + B·Z³`
(the affine equation `(Y/Z)² = (X/Z)³ + A·(X/Z) + B` with denominators
cleared by `Z³`). -/
theorem swu_on_curve (t X Y Zc : FQ2)
    (h : optimized_swu_G2 t = some (X, Y, Zc)) :
    Y ^ 2 * Zc = X ^ 3 + ISO_3_A * X * Zc ^ 2 + ISO_3_B * Zc ^ 3 := by
  by_cases hc : swu_success t = false ∧ swu_success2 t = false
  · rw [optimized_swu_G2, if_pos hc] at h
    simp at h
  · rw [optimized_swu_G2, if_neg hc] at h
    have h3 := Option.some.inj h
    rw [Prod.mk.injEq, Prod.mk.injEq] at h3
    obtain ⟨hX, hY, hZ⟩ := h3
    subst hX; subst hY; subst hZ
    have hY2 : (swu_ySigned t * swu_den t) ^ 2 * swu_den t
        = swu_yMid t ^ 2 * swu_den t ^ 3 := by
      rw [mul_pow, swu_ySigned_sq]; ring
    rw [hY2]
    have hv : swu_v t = swu_den t ^ 3 := by rw [swu_v, fqpow_eq]
    cases hsucc : swu_success t with
    | true =>
      have hnum : swu_num t = swu_num0 t := by
        rw [swu_num, hsucc]; simp
      have hyMid : swu_yMid t = swu_y0 t := swu_yMid_of_success t hsucc
      have hs2 : (sqrt_division_FQ2 (swu_u t) (swu_v t)).1 = true := by
        rw [← swu_sqrtRes, ← swu_success]; exact hsucc
      have hsq := sqrt_division_success_sq (swu_u t) (swu_v t) hs2
      rw [← swu_sqrtRes, ← swu_y0, fqpow_eq] at hsq
      have hsq2 : swu_y0 t ^ 2 * swu_v t = swu_u t := sub_eq_zero.mp hsq
      rw [hnum, hyMid]
      calc swu_y0 t ^ 2 * swu_den t ^ 3
          = swu_y0 t ^ 2 * swu_v t := by rw [hv]
        _ = swu_u t := hsq2
        _ = swu_num0 t ^ 3 + ISO_3_A * swu_num0 t * swu_den t ^ 2
              + ISO_3_B * swu_den t ^ 3 := by
            rw [swu_u, swu_v]; simp only [fqpow_eq]
    | false =>
      have hs2 : swu_success2 t = true := by
        rcases Bool.eq_false_or_eq_true (swu_success2 t) with h2 | h2
        · exact h2
        · exact absurd ⟨hsucc, h2⟩ hc
      obtain ⟨eta, hmem, hchk, hyMid⟩ := swu_eta_found t hsucc hs2
      rw [fqpow_eq] at hchk
      have hchk2 : (eta * swu_cand1 t) ^ 2 * swu_v t = swu_u1 t :=
        sub_eq_zero.mp hchk
      have hnum : swu_num t = swu_num0 t * swu_t2 t * ISO_3_Z := by
        rw [swu_num, hsucc]; simp
      have hden0 : ¬ swu_den0 t = 0 := by
        intro h0
        have hs0 := swu_s_of_den0_zero t h0
        rw [swu_success_of_s_zero t hs0] at hsucc
        exact Bool.noConfusion hsucc
      have hden : swu_den t = -(ISO_3_A * swu_s t) := by
        rw [swu_den, if_neg hden0, swu_den0]
      rw [hnum, hyMid]
      have step1 : (swu_cand1 t * eta) ^ 2 * swu_den t ^ 3 = swu_u1 t := by
        rw [← hv, ← hchk2]; ring
      rw [step1, swu_u1, swu_u, swu_v, hden, swu_num0, swu_s, swu_t2]
      simp only [fqpow_eq]
      ring

/-- The third component of any returned triple is the computed denominator. -/
theorem swu_some_den (t X Y Zc : FQ2)
    (h : optimized_swu_G2 t = some (X, Y, Zc)) : Zc = swu_den t := by
  by_cases hc : swu_success t = false ∧ swu_success2 t = false
  · rw [optimized_swu_G2, if_pos hc] at h
    simp at h
  · rw [optimized_swu_G2, if_neg hc] at h
    have h3 := Option.some.inj h
    rw [Prod.mk.injEq, Prod.mk.injEq] at h3
    exact h3.2.2.symm

theorem swu_success2_false_of_no_eta (t : FQ2) (h1 : swu_success t = false)
    (h2 : ∀ eta ∈ positive_eta_roots,
        fqpow (eta * swu_cand1 t) 2 * swu_v t - swu_u1 t ≠ 0) :
    swu_success2 t = false := by
  rw [swu_success2, swu_etaState_of_fail t h1]
  rcases Bool.eq_false_or_eq_true
      (firstMatch (fun eta => fqpow (eta * swu_cand1 t) 2 * swu_v t - swu_u1 t = 0)
        (fun eta => swu_cand1 t * eta) positive_eta_roots (swu_y0 t)).1
    with hb | hb
  · obtain ⟨eta, hmem, hp⟩ := (firstMatch_fst_true_iff _ _ _ _).mp hb
    exact absurd hp (h2 eta hmem)
  · exact hb

theorem swu_no_eta_of_success2_false (t : FQ2) (h1 : swu_success t = false)
    (h2 : swu_success2 t = false) :
    ∀ eta ∈ positive_eta_roots,
      fqpow (eta * swu_cand1 t) 2 * swu_v t - swu_u1 t ≠ 0 := by
  intro eta hmem
  have hst := swu_etaState_of_fail t h1
  have hf : (firstMatch
      (fun eta => fqpow (eta * swu_cand1 t) 2 * swu_v t - swu_u1 t = 0)
      (fun eta => swu_cand1 t * eta) positive_eta_roots (swu_y0 t)).1 = false := by
    rw [← hst]; exact h2
  exact (firstMatch_false_spec _ _ _ _ hf).2 eta hmem

/-- C1: for every field element `t`, the triple `(X, Y, Z)` returned by
`optimized_swu_G2` has `Z ≠ 0` and satisfies the isogenous curve equation
in affine terms — stated with denominators cleared by `Z³`, i.e.
`Y²·Z = X³ + A·X·Z² + B·Z³` with `A = ISO_3_A`, `B = ISO_3_B`, exactly over
the extension field. -/
theorem claim_C1_output_on_isogenous_curve (t X Y Zc : FQ2)
    (h : optimized_swu_G2 t = some (X, Y, Zc)) :
    Zc ≠ 0 ∧ Y ^ 2 * Zc = X ^ 3 + ISO_3_A * X * Zc ^ 2 + ISO_3_B * Zc ^ 3 :=
  ⟨(swu_some_den t X Y Zc h) ▸ swu_den_ne_zero t, swu_on_curve t X Y Zc h⟩

theorem claim_C1_witness :
    optimized_swu_G2 0 = some (ISO_3_B, SWU0_Y, ISO_3_Z * ISO_3_A)
      ∧ ISO_3_Z * ISO_3_A ≠ 0
      ∧ SWU0_Y ^ 2 * (ISO_3_Z * ISO_3_A)
          = ISO_3_B ^ 3 + ISO_3_A * ISO_3_B * (ISO_3_Z * ISO_3_A) ^ 2
            + ISO_3_B * (ISO_3_Z * ISO_3_A) ^ 3 :=
  ⟨optimized_swu_G2_zero,
    claim_C1_output_on_isogenous_curve 0 ISO_3_B SWU0_Y (ISO_3_Z * ISO_3_A)
      optimized_swu_G2_zero⟩

/-- C2: whenever `sqrt_division_FQ2 u v` (with `v` nonzero) returns
`(true, r)`, the candidate `r` equals `root * candidate0` for some table
root of unity, and `r² · v − u = 0`, so `r` is a genuine square root of
`u/v`. -/
theorem claim_C2_sqrt_success_sound (u v : FQ2) (_hv : v ≠ 0) (r : FQ2)
    (h : sqrt_division_FQ2 u v = (true, r)) :
    (∃ root ∈ POSITIVE_EIGTH_ROOTS_OF_UNITY,
        r = root * (fqpow (u * fqpow v 7 * fqpow v 8) P_MINUS_9_DIV_16
          * (u * fqpow v 7)))
      ∧ fqpow r 2 * v - u = 0 := by
  have hs := sqrt_division_true_spec u v r h
  simpa only [sqrtCand] using hs

unseal FQ2.mulPow in
theorem claim_C2_witness :
    exc_v ≠ 0
      ∧ (∃ root ∈ POSITIVE_EIGTH_ROOTS_OF_UNITY,
          EXC_ROOT_RES = root * (fqpow (exc_u * fqpow exc_v 7 * fqpow exc_v 8)
            P_MINUS_9_DIV_16 * (exc_u * fqpow exc_v 7)))
      ∧ fqpow EXC_ROOT_RES 2 * exc_v - exc_u = 0 :=
  ⟨by decide,
    (claim_C2_sqrt_success_sound exc_u exc_v (by decide) EXC_ROOT_RES
      exc_sqrtdiv).1,
    (claim_C2_sqrt_success_sound exc_u exc_v (by decide) EXC_ROOT_RES
      exc_sqrtdiv).2⟩

/-- C3: `sqrt_division_FQ2` computes
`candidate0 = (u·v⁷·v⁸)^((p−9)/16) · (u·v⁷)` and equals the first-match
scan of the root table: the first matching root (in table order) determines
the result, a later match never overwrites it, and if no root matches the
result is `(false, candidate0)` with `candidate0` unmodified. -/
theorem claim_C3_sqrt_first_match (u v : FQ2) (_hv : v ≠ 0) :
    sqrt_division_FQ2 u v =
      match POSITIVE_EIGTH_ROOTS_OF_UNITY.find?
          (fun root => decide (fqpow (root
            * (fqpow (u * fqpow v 7 * fqpow v 8) P_MINUS_9_DIV_16
              * (u * fqpow v 7))) 2 * v - u = 0)) with
      | some root =>
          (true, root * (fqpow (u * fqpow v 7 * fqpow v 8) P_MINUS_9_DIV_16
            * (u * fqpow v 7)))
      | none =>
          (false, fqpow (u * fqpow v 7 * fqpow v 8) P_MINUS_9_DIV_16
            * (u * fqpow v 7)) := by
  rw [sqrt_division_eq_firstMatch, firstMatch_eq_find]
  simp only [sqrtCand]
  cases POSITIVE_EIGTH_ROOTS_OF_UNITY.find?
      (fun root => decide (fqpow (root
        * (fqpow (u * fqpow v 7 * fqpow v 8) P_MINUS_9_DIV_16
          * (u * fqpow v 7))) 2 * v - u = 0)) with
  | none => rfl
  | some root => rfl

unseal FQ2.mulPow in
theorem claim_C3_witness :
    exc_v ≠ 0
      ∧ sqrt_division_FQ2 exc_u exc_v =
          match POSITIVE_EIGTH_ROOTS_OF_UNITY.find?
              (fun root => decide (fqpow (root
                * (fqpow (exc_u * fqpow exc_v 7 * fqpow exc_v 8)
                  P_MINUS_9_DIV_16 * (exc_u * fqpow exc_v 7))) 2
                * exc_v - exc_u = 0)) with
          | some root =>
              (true, root * (fqpow (exc_u * fqpow exc_v 7 * fqpow exc_v 8)
                P_MINUS_9_DIV_16 * (exc_u * fqpow exc_v 7)))
          | none =>
              (false, fqpow (exc_u * fqpow exc_v 7 * fqpow exc_v 8)
                P_MINUS_9_DIV_16 * (exc_u * fqpow exc_v 7)) :=
  ⟨by decide, claim_C3_sqrt_first_match exc_u exc_v (by decide)⟩

/-- C4: whenever the pre-substitution denominator `-(A·(Z·t² + Z²·t⁴))`
vanishes, the map substitutes the constant denominator `Z·A`, proceeds
normally (returns a triple), and the returned point still satisfies the
curve equation; whenever it is nonzero, the denominator is left unchanged. -/
theorem claim_C4_exceptional_denominator (t : FQ2) :
    (swu_den0 t = 0 →
        swu_den t = ISO_3_Z * ISO_3_A
          ∧ (optimized_swu_G2 t).isSome = true
          ∧ ∀ X Y Zc, optimized_swu_G2 t = some (X, Y, Zc) →
              Y ^ 2 * Zc = X ^ 3 + ISO_3_A * X * Zc ^ 2 + ISO_3_B * Zc ^ 3)
      ∧ (swu_den0 t ≠ 0 → swu_den t = swu_den0 t) := by
  constructor
  · intro h0
    have hs0 := swu_s_of_den0_zero t h0
    have hsucc := swu_success_of_s_zero t hs0
    refine ⟨by rw [swu_den, if_pos h0], ?_, ?_⟩
    · rw [optimized_swu_G2, if_neg (by simp [hsucc])]
      rfl
    · intro X Y Zc hsome
      exact swu_on_curve t X Y Zc hsome
  · intro h0
    rw [swu_den, if_neg h0]

unseal FQ2.mulPow in
theorem claim_C4_witness :
    swu_den0 0 = 0
      ∧ swu_den 0 = ISO_3_Z * ISO_3_A
      ∧ (optimized_swu_G2 0).isSome = true :=
  ⟨by decide,
    ((claim_C4_exceptional_denominator 0).1 (by decide)).1,
    ((claim_C4_exceptional_denominator 0).1 (by decide)).2.1⟩

/-- C5: the map signals the unrecoverable fatal error (modelled as `none`)
exactly when the primary square-root division failed and none of the four
eta candidates satisfies `(eta · y₀·t³)² · v − (Z·t²)³·u = 0`; in every
other case it returns a triple normally. -/
theorem claim_C5_raise_iff_no_branch_succeeds (t : FQ2) :
    optimized_swu_G2 t = none ↔
      swu_success t = false
        ∧ ∀ eta ∈ positive_eta_roots,
            fqpow (eta * swu_cand1 t) 2 * swu_v t - swu_u1 t ≠ 0 := by
  constructor
  · intro h
    by_cases hc : swu_success t = false ∧ swu_success2 t = false
    · exact ⟨hc.1, swu_no_eta_of_success2_false t hc.1 hc.2⟩
    · rw [optimized_swu_G2, if_neg hc] at h
      simp at h
  · intro ⟨h1, h2⟩
    have hs2 := swu_success2_false_of_no_eta t h1 h2
    rw [optimized_swu_G2, if_pos ⟨h1, hs2⟩]

/-- C8: at the additive identity of the field the map returns normally
(never reaching the fatal branch) and its output satisfies the curve
equation. -/
theorem claim_C8_zero_input_safe :
    optimized_swu_G2 0 = some (ISO_3_B, SWU0_Y, ISO_3_Z * ISO_3_A)
      ∧ SWU0_Y ^ 2 * (ISO_3_Z * ISO_3_A)
          = ISO_3_B ^ 3 + ISO_3_A * ISO_3_B * (ISO_3_Z * ISO_3_A) ^ 2
            + ISO_3_B * (ISO_3_Z * ISO_3_A) ^ 3 :=
  ⟨optimized_swu_G2_zero,
    swu_on_curve 0 ISO_3_B SWU0_Y (ISO_3_Z * ISO_3_A) optimized_swu_G2_zero⟩

/-- C9: the third component of every returned triple is nonzero — it is
either `-(A·s)` with `s` nonzero (the branch guard ensured the product is
nonzero) or the nonzero constant `Z·A`. -/
theorem claim_C9_denominator_never_zero (t X Y Zc : FQ2)
    (h : optimized_swu_G2 t = some (X, Y, Zc)) :
    Zc ≠ 0
      ∧ ((Zc = -(ISO_3_A * swu_s t) ∧ swu_s t ≠ 0)
          ∨ Zc = ISO_3_Z * ISO_3_A) := by
  have hz := swu_some_den t X Y Zc h
  subst hz
  refine ⟨swu_den_ne_zero t, ?_⟩
  by_cases h0 : swu_den0 t = 0
  · right
    rw [swu_den, if_pos h0]
  · left
    refine ⟨by rw [swu_den, if_neg h0, swu_den0], ?_⟩
    intro hs0
    exact h0 (by rw [swu_den0, hs0, mul_zero, neg_zero])

theorem claim_C9_witness :
    optimized_swu_G2 0 = some (ISO_3_B, SWU0_Y, ISO_3_Z * ISO_3_A)
      ∧ ISO_3_Z * ISO_3_A ≠ 0
      ∧ ((ISO_3_Z * ISO_3_A = -(ISO_3_A * swu_s 0) ∧ swu_s 0 ≠ 0)
          ∨ ISO_3_Z * ISO_3_A = ISO_3_Z * ISO_3_A) :=
  ⟨optimized_swu_G2_zero,
    (claim_C9_denominator_never_zero 0 ISO_3_B SWU0_Y (ISO_3_Z * ISO_3_A)
      optimized_swu_G2_zero).1,
    (claim_C9_denominator_never_zero 0 ISO_3_B SWU0_Y (ISO_3_Z * ISO_3_A)
      optimized_swu_G2_zero).2⟩

/-- C10: a degenerate projective input (`z = 0`) yields a degenerate
projective output: the homogenized y-denominator is multiplied by `z`,
forcing `X_out = xNum·yDen = 0` and `Z_out = xDen·yDen = 0`, for any
coefficient tables and any `x`, `y`. -/
theorem claim_C10_degenerate_z (K : List (List FQ2)) (x y : FQ2) :
    (iso_map_G2 K x y 0).1 = 0 ∧ (iso_map_G2 K x y 0).2.2 = 0 := by
  constructor <;> simp [iso_map_G2, mul_zero]

/-- Spec-side definition (for the refinement comparison in C7): the
homogenized degree-3 polynomial `Σ coeff_j · x^j · z^(3−j)` of §4.3, with
ascending-degree coefficients. -/
def specHomogSum3 (k0 k1 k2 k3 x z : FQ2) : FQ2 :=
  k0 * z ^ 3 + k1 * x * z ^ 2 + k2 * x ^ 2 * z + k3 * x ^ 3

/-- Spec-side definition (for the refinement comparison in C7): the
homogenized degree-2 polynomial `Σ coeff_j · x^j · z^(2−j)` of §4.3. -/
def specHomogSum2 (k0 k1 k2 x z : FQ2) : FQ2 :=
  k0 * z ^ 2 + k1 * x * z + k2 * x ^ 2

/-- C7: on the four coefficient tables (x-numerator of degree 3,
x-denominator of degree 2, y-numerator of degree 3, y-denominator of
degree 3), `iso_map_G2`'s Horner loop computes exactly the homogenized sums
`Σ coeff_j·x^j·z^(d−j)`, multiplies the y-numerator by `y` and the
y-denominator by `z`, and returns
`(xNum·yDen, yNum·xDen, xDen·yDen)`; consequently, whenever the
denominators are nonzero, the output's affine coordinates equal
`(xNum/xDen, y·yNum/(z·yDen))`, stated in cross-multiplied form. -/
theorem claim_C7_iso_map_refines_spec
    (a0 a1 a2 a3 b0 b1 b2 c0 c1 c2 c3 d0 d1 d2 d3 x y z : FQ2)
    (_hxd : specHomogSum2 b0 b1 b2 x z ≠ 0)
    (_hyd : z * specHomogSum3 d0 d1 d2 d3 x z ≠ 0) :
    iso_map_G2 [[a0, a1, a2, a3], [b0, b1, b2], [c0, c1, c2, c3],
        [d0, d1, d2, d3]] x y z
      = (specHomogSum3 a0 a1 a2 a3 x z * (specHomogSum3 d0 d1 d2 d3 x z * z),
         specHomogSum3 c0 c1 c2 c3 x z * y * specHomogSum2 b0 b1 b2 x z,
         specHomogSum2 b0 b1 b2 x z * (specHomogSum3 d0 d1 d2 d3 x z * z))
      ∧ (iso_map_G2 [[a0, a1, a2, a3], [b0, b1, b2], [c0, c1, c2, c3],
            [d0, d1, d2, d3]] x y z).1 * specHomogSum2 b0 b1 b2 x z
          = specHomogSum3 a0 a1 a2 a3 x z
            * (iso_map_G2 [[a0, a1, a2, a3], [b0, b1, b2], [c0, c1, c2, c3],
                [d0, d1, d2, d3]] x y z).2.2
      ∧ (iso_map_G2 [[a0, a1, a2, a3], [b0, b1, b2], [c0, c1, c2, c3],
            [d0, d1, d2, d3]] x y z).2.1
            * (z * specHomogSum3 d0 d1 d2 d3 x z)
          = y * specHomogSum3 c0 c1 c2 c3 x z
            * (iso_map_G2 [[a0, a1, a2, a3], [b0, b1, b2], [c0, c1, c2, c3],
                [d0, d1, d2, d3]] x y z).2.2 := by
  have hmain : iso_map_G2 [[a0, a1, a2, a3], [b0, b1, b2], [c0, c1, c2, c3],
      [d0, d1, d2, d3]] x y z
    = ((((a3 * x + z * a2) * x + fqpow z 2 * a1) * x + fqpow z 3 * a0)
        * ((((d3 * x + z * d2) * x + fqpow z 2 * d1) * x + fqpow z 3 * d0) * z),
       ((((c3 * x + z * c2) * x + fqpow z 2 * c1) * x + fqpow z 3 * c0) * y)
        * ((b2 * x + z * b1) * x + fqpow z 2 * b0),
       ((b2 * x + z * b1) * x + fqpow z 2 * b0)
        * ((((d3 * x + z * d2) * x + fqpow z 2 * d1) * x + fqpow z 3 * d0) * z)) :=
    rfl
  have hspec : iso_map_G2 [[a0, a1, a2, a3], [b0, b1, b2], [c0, c1, c2, c3],
      [d0, d1, d2, d3]] x y z
    = (specHomogSum3 a0 a1 a2 a3 x z * (specHomogSum3 d0 d1 d2 d3 x z * z),
       specHomogSum3 c0 c1 c2 c3 x z * y * specHomogSum2 b0 b1 b2 x z,
       specHomogSum2 b0 b1 b2 x z * (specHomogSum3 d0 d1 d2 d3 x z * z)) := by
    rw [hmain]
    simp only [Prod.mk.injEq]
    refine ⟨?_, ?_, ?_⟩ <;>
      simp only [specHomogSum3, specHomogSum2, fqpow_eq] <;> ring
  refine ⟨hspec, ?_, ?_⟩ <;> rw [hspec] <;> dsimp only <;> ring

theorem claim_C7_witness :
    specHomogSum2 1 1 1 (1 : FQ2) 1 ≠ 0
      ∧ (1 : FQ2) * specHomogSum3 1 1 1 1 1 1 ≠ 0
      ∧ iso_map_G2 [[1, 1, 1, 1], [1, 1, 1], [1, 1, 1, 1], [1, 1, 1, 1]]
          (1 : FQ2) 1 1
        = (specHomogSum3 1 1 1 1 1 1 * (specHomogSum3 1 1 1 1 1 1 * 1),
           specHomogSum3 1 1 1 1 1 1 * 1 * specHomogSum2 1 1 1 1 1,
           specHomogSum2 1 1 1 1 1 * (specHomogSum3 1 1 1 1 1 1 * 1)) :=
  ⟨by decide, by decide,
    (claim_C7_iso_map_refines_spec 1 1 1 1 1 1 1 1 1 1 1 1 1 1 1 1 1 1
      (by decide) (by decide)).1⟩
